import Mathlib

/-
  Shallow embedding of the grademark backtesting engine.

  Sources embedded here:
  - the backtest state machine (updatePosition, finalizePosition, backtest);
  - the grid-search and hill-climb optimizers (optimize.ts);
  - the analysis curves (computeEquityCurve, computeDrawdown).

  Prices and distances are modelled as rationals, timestamps as naturals,
  and the strategy rule callbacks as pure Lean functions: a rule that may
  call enterPosition at most once is a function returning an Option of the
  call's arguments, and exitPosition is a Boolean signal.
-/

namespace Grademark

inductive TradeDirection where
  | Long
  | Short
deriving DecidableEq, Repr

/-- One OHLC bar; the `open` field of the source is `openPrice` here because
`open` is a Lean keyword.  `volume` is carried for fidelity but unused. -/
structure Bar where
  time : ℕ
  openPrice : ℚ
  high : ℚ
  low : ℚ
  close : ℚ
  volume : ℚ := 0
deriving DecidableEq, Repr

/-- Mirror of IPosition (src/src/lib/position.ts). -/
structure Position where
  direction : TradeDirection
  entryTime : ℕ
  entryPrice : ℚ
  profit : ℚ
  profitPct : ℚ
  growth : ℚ
  initialUnitRisk : Option ℚ := none
  initialRiskPct : Option ℚ := none
  curRiskPct : Option ℚ := none
  curRMultiple : Option ℚ := none
  riskSeries : Option (List (ℕ × ℚ)) := none
  holdingPeriod : ℕ
  initialStopPrice : Option ℚ := none
  curStopPrice : Option ℚ := none
  stopPriceSeries : Option (List (ℕ × ℚ)) := none
  profitTarget : Option ℚ := none
deriving DecidableEq, Repr

/-- Mirror of ITrade (src/unnamed/part_001 lines 8-26). -/
structure Trade where
  direction : TradeDirection
  entryTime : ℕ
  entryPrice : ℚ
  exitTime : ℕ
  exitPrice : ℚ
  profit : ℚ
  profitPct : ℚ
  growth : ℚ
  riskPct : Option ℚ
  rmultiple : Option ℚ
  riskSeries : Option (List (ℕ × ℚ))
  holdingPeriod : ℕ
  exitReason : String
  stopPrice : Option ℚ
  stopPriceSeries : Option (List (ℕ × ℚ))
  profitTarget : Option ℚ
deriving DecidableEq, Repr

/-- Arguments of an enterPosition call: direction after the source default
(`options.direction or Long`), and the optional conditional entry price. -/
structure EnterPositionOptions where
  direction : TradeDirection := TradeDirection.Long
  entryPrice : Option ℚ := none
deriving DecidableEq, Repr

/-- A strategy: the rule callbacks become pure functions.  Each receives the
current bar and the lookback buffer (oldest-first list); `stopLoss`,
`trailingStopLoss` and `profitTarget` also receive the entry price and the
position under construction, as in the source. -/
structure Strategy where
  lookbackPeriod : Option ℕ := none
  prepIndicators : Option (List Bar → List Bar) := none
  entryRule : Bar → List Bar → Option EnterPositionOptions
  exitRule : Option (Bar → List Bar → Position → Bool) := none
  stopLoss : Option (ℚ → Position → Bar → List Bar → ℚ) := none
  trailingStopLoss : Option (ℚ → Position → Bar → List Bar → ℚ) := none
  profitTarget : Option (ℚ → Position → Bar → List Bar → ℚ) := none

structure BacktestOptions where
  recordStopPrice : Bool := false
  recordRisk : Bool := false
deriving DecidableEq, Repr

/-- updatePosition (src/unnamed/part_001 lines 76-90).  Note: the source
computes `profit = bar.close - position.entryPrice` with no branch on
direction. -/
def updatePosition (position : Position) (bar : Bar) : Position :=
  let profit := bar.close - position.entryPrice
  let profitPct := profit / position.entryPrice * 100
  let growth := match position.direction with
    | .Long => bar.close / position.entryPrice
    | .Short => position.entryPrice / bar.close
  match position.curStopPrice with
  | some stop =>
      let unitRisk := match position.direction with
        | .Long => bar.close - stop
        | .Short => stop - bar.close
      { position with
          profit := profit, profitPct := profitPct, growth := growth,
          curRiskPct := some (unitRisk / bar.close * 100),
          curRMultiple := some (profit / unitRisk),
          holdingPeriod := position.holdingPeriod + 1 }
  | none =>
      { position with
          profit := profit, profitPct := profitPct, growth := growth,
          holdingPeriod := position.holdingPeriod + 1 }

/-- finalizePosition (src/unnamed/part_001 lines 92-120). -/
def finalizePosition (position : Position) (exitTime : ℕ) (exitPrice : ℚ)
    (exitReason : String) : Trade :=
  let profit := match position.direction with
    | .Long => exitPrice - position.entryPrice
    | .Short => position.entryPrice - exitPrice
  { direction := position.direction
    entryTime := position.entryTime
    entryPrice := position.entryPrice
    exitTime := exitTime
    exitPrice := exitPrice
    profit := profit
    profitPct := profit / position.entryPrice * 100
    growth := match position.direction with
      | .Long => exitPrice / position.entryPrice
      | .Short => position.entryPrice / exitPrice
    riskPct := position.initialRiskPct
    riskSeries := position.riskSeries
    rmultiple := match position.initialUnitRisk with
      | some iur => some (profit / iur)
      | none => none
    holdingPeriod := position.holdingPeriod
    exitReason := exitReason
    stopPrice := position.initialStopPrice
    stopPriceSeries := position.stopPriceSeries
    profitTarget := position.profitTarget }

inductive PositionStatus where
  | None
  | Enter
  | Position
  | Exit
deriving DecidableEq, Repr

/-- The mutable engine state of the backtest loop. -/
structure BacktestState where
  completedTrades : List Trade
  positionStatus : PositionStatus
  positionDirection : TradeDirection
  conditionalEntryPrice : Option ℚ
  openPosition : Option Position
deriving Repr

def initialState : BacktestState :=
  { completedTrades := []
    positionStatus := .None
    positionDirection := .Long
    conditionalEntryPrice := none
    openPosition := none }

/-- closePosition (src/unnamed/part_001 lines 190-195). -/
def closePos (st : BacktestState) (position : Position) (bar : Bar)
    (exitPrice : ℚ) (exitReason : String) : BacktestState :=
  { st with
      completedTrades :=
        st.completedTrades ++ [finalizePosition position bar.time exitPrice exitReason]
      openPosition := none
      positionStatus := .None }

/-- Entry-bar arming of the fixed stop loss
(src/unnamed/part_001 lines 237-249). -/
def armStopLoss (s : Strategy) (entryPrice : ℚ) (pos0 : Position) (bar : Bar)
    (lookback : List Bar) : Position :=
  match s.stopLoss with
  | none => pos0
  | some sl =>
      let d := sl entryPrice pos0 bar lookback
      let isp := match pos0.direction with
        | .Long => entryPrice - d
        | .Short => entryPrice + d
      { pos0 with initialStopPrice := some isp, curStopPrice := some isp }

/-- Entry-bar arming of the trailing stop
(src/unnamed/part_001 lines 251-281): the trailing candidate tightens an
already-armed initial stop (max for Long, min for Short), and the stop
series is created when `recordStopPrice` is set. -/
def armTrailingStop (s : Strategy) (opts : BacktestOptions) (entryPrice : ℚ)
    (pos1 : Position) (bar : Bar) (lookback : List Bar) : Position :=
  match s.trailingStopLoss with
  | none => pos1
  | some tsl =>
      let t := tsl entryPrice pos1 bar lookback
      let trailingStopPrice := match pos1.direction with
        | .Long => entryPrice - t
        | .Short => entryPrice + t
      let isp := match pos1.initialStopPrice with
        | none => trailingStopPrice
        | some existing => match pos1.direction with
          | .Long => max existing trailingStopPrice
          | .Short => min existing trailingStopPrice
      let p := { pos1 with initialStopPrice := some isp, curStopPrice := some isp }
      if opts.recordStopPrice then
        { p with stopPriceSeries := some [(bar.time, isp)] }
      else p

/-- Entry-bar unit-risk derivation (src/unnamed/part_001 lines 283-299). -/
def armUnitRisk (opts : BacktestOptions) (entryPrice : ℚ) (pos2 : Position)
    (bar : Bar) : Position :=
  match pos2.curStopPrice with
  | none => pos2
  | some csp =>
      let iur := match pos2.direction with
        | .Long => entryPrice - csp
        | .Short => csp - entryPrice
      let irp := iur / entryPrice * 100
      let p := { pos2 with
        initialUnitRisk := some iur
        initialRiskPct := some irp
        curRiskPct := some irp
        curRMultiple := some 0 }
      if opts.recordRisk then
        { p with riskSeries := some [(bar.time, irp)] }
      else p

/-- Entry-bar arming of the profit target
(src/unnamed/part_001 lines 301-312). -/
def armProfitTarget (s : Strategy) (entryPrice : ℚ) (pos3 : Position) (bar : Bar)
    (lookback : List Bar) : Position :=
  match s.profitTarget with
  | none => pos3
  | some pt =>
      let d := pt entryPrice pos3 bar lookback
      { pos3 with profitTarget := some (match pos3.direction with
          | .Long => entryPrice + d
          | .Short => entryPrice - d) }

/-- Position construction on the entry bar
(src/unnamed/part_001 lines 226-312), in source order: create, arm stopLoss,
arm trailingStopLoss (tightening an existing initial stop), derive unit
risk, arm the profit target. -/
def createPosition (s : Strategy) (opts : BacktestOptions)
    (direction : TradeDirection) (bar : Bar) (lookback : List Bar) : Position :=
  let entryPrice := bar.openPrice
  let pos0 : Position :=
    { direction := direction
      entryTime := bar.time
      entryPrice := entryPrice
      growth := 1
      profit := 0
      profitPct := 0
      holdingPeriod := 0 }
  let pos1 := armStopLoss s entryPrice pos0 bar lookback
  let pos2 := armTrailingStop s opts entryPrice pos1 bar lookback
  let pos3 := armUnitRisk opts entryPrice pos2 bar
  armProfitTarget s entryPrice pos3 bar lookback

/-- The trailing-stop ratchet inside the Position state
(src/unnamed/part_001 lines 335-362): recompute the trailing stop from the
bar close and replace `curStopPrice` only when strictly tighter; then append
to the recorded stop series when `recordStopPrice` is set. -/
def ratchetStopPrice (position : Position) (bar : Bar) (t : ℚ) : Position :=
  match position.direction with
  | .Long =>
      let newTrailingStopPrice := bar.close - t
      match position.curStopPrice with
      | some c =>
          if c < newTrailingStopPrice then
            { position with curStopPrice := some newTrailingStopPrice }
          else position
      | none => position
  | .Short =>
      let newTrailingStopPrice := bar.close + t
      match position.curStopPrice with
      | some c =>
          if newTrailingStopPrice < c then
            { position with curStopPrice := some newTrailingStopPrice }
          else position
      | none => position

/-- The stop-series append of lines 356-361, executed whenever the trailing
stop is configured and `recordStopPrice` is set. -/
def recordStopSeries (opts : BacktestOptions) (position : Position) (bar : Bar) :
    Position :=
  if opts.recordStopPrice then
    match position.curStopPrice with
    | some c =>
        { position with
            stopPriceSeries := some (position.stopPriceSeries.getD [] ++ [(bar.time, c)]) }
    | none => position
  else position

def ratchetTrailingStop (s : Strategy) (opts : BacktestOptions)
    (position : Position) (bar : Bar) (lookback : List Bar) : Position :=
  match s.trailingStopLoss with
  | none => position
  | some tsl =>
      let t := tsl position.entryPrice position bar lookback
      recordStopSeries opts (ratchetStopPrice position bar t) bar

/-- The tail of the Position state after the profit-target check fell
through (src/unnamed/part_001 lines 378-394): updatePosition, optional risk
recording, then the exit rule which may signal a transition to Exit. -/
def positionUpdateStep (s : Strategy) (opts : BacktestOptions)
    (st : BacktestState) (position : Position) (bar : Bar) (lookback : List Bar) :
    BacktestState :=
  let pos3 := updatePosition position bar
  let pos4 :=
    if opts.recordRisk && pos3.curRiskPct.isSome then
      { pos3 with
          riskSeries := some (pos3.riskSeries.getD [] ++ [(bar.time, pos3.curRiskPct.getD 0)]) }
    else pos3
  let newStatus := match s.exitRule with
    | some er => if er bar lookback pos4 then PositionStatus.Exit else PositionStatus.Position
    | none => PositionStatus.Position
  { st with openPosition := some pos4, positionStatus := newStatus }

/-- The Position state after the stop-loss check fell through
(src/unnamed/part_001 lines 335-396): trailing ratchet, then the
profit-target check (closing with the ratcheted position), then the update
tail. -/
def positionAfterStop (s : Strategy) (opts : BacktestOptions)
    (st : BacktestState) (position : Position) (bar : Bar) (lookback : List Bar) :
    BacktestState :=
  let pos2 := ratchetTrailingStop s opts position bar lookback
  match pos2.profitTarget with
  | some pt =>
      (match pos2.direction with
        | .Long =>
            if pt ≤ bar.high then closePos st pos2 bar pt "profit-target"
            else positionUpdateStep s opts st pos2 bar lookback
        | .Short =>
            if bar.low ≤ pt then closePos st pos2 bar pt "profit-target"
            else positionUpdateStep s opts st pos2 bar lookback)
  | none => positionUpdateStep s opts st pos2 bar lookback

/-- One iteration of the bar loop after the lookback buffer is full
(src/unnamed/part_001 lines 202-405): the state-machine dispatch. -/
def processBar (s : Strategy) (opts : BacktestOptions) (st : BacktestState)
    (bar : Bar) (lookback : List Bar) : BacktestState :=
  match st.positionStatus with
  | .None =>
      match s.entryRule bar lookback with
      | none => st
      | some eopts =>
          { st with
              positionStatus := .Enter
              positionDirection := eopts.direction
              conditionalEntryPrice := eopts.entryPrice }
  | .Enter =>
      let enterNow : BacktestState :=
        { st with
            openPosition := some (createPosition s opts st.positionDirection bar lookback)
            positionStatus := .Position }
      (match st.conditionalEntryPrice with
        | some cep =>
            (match st.positionDirection with
              | .Long => if bar.high < cep then st else enterNow
              | .Short => if cep < bar.low then st else enterNow)
        | none => enterNow)
  | .Position =>
      (match st.openPosition with
        | none => st
        | some position =>
            (match position.curStopPrice with
              | some c =>
                  (match position.direction with
                    | .Long =>
                        if bar.low ≤ c then closePos st position bar c "stop-loss"
                        else positionAfterStop s opts st position bar lookback
                    | .Short =>
                        if c ≤ bar.high then closePos st position bar c "stop-loss"
                        else positionAfterStop s opts st position bar lookback)
              | none => positionAfterStop s opts st position bar lookback))
  | .Exit =>
      match st.openPosition with
      | none => st
      | some position => closePos st position bar bar.openPrice "exit-rule"

/-- CBuffer push with a capacity: append, evicting the oldest element when
over capacity. -/
def pushBuffer (cap : ℕ) (buf : List Bar) (bar : Bar) : List Bar :=
  let l := buf ++ [bar]
  if l.length ≤ cap then l else l.drop (l.length - cap)

/-- The bar loop (src/unnamed/part_001 lines 197-406): push onto the
lookback buffer, skip until it is full, then dispatch on the state. -/
def runBars (s : Strategy) (opts : BacktestOptions) (lookbackPeriod : ℕ) :
    List Bar → List Bar → BacktestState → BacktestState
  | [], _, st => st
  | bar :: rest, buf, st =>
      let buf2 := pushBuffer lookbackPeriod buf bar
      if buf2.length < lookbackPeriod then runBars s opts lookbackPeriod rest buf2 st
      else runBars s opts lookbackPeriod rest buf2 (processBar s opts st bar buf2)

/-- The source reads `strategy.lookbackPeriod or 1`: undefined and 0 both
yield 1 under JavaScript truthiness. -/
def effectiveLookback (s : Strategy) : ℕ :=
  match s.lookbackPeriod with
  | none => 1
  | some n => if n = 0 then 1 else n

/-- The indicator series (src/unnamed/part_001 lines 163-173): the optional
prepIndicators transform, defaulting to the input itself. -/
def indicatorSeries (s : Strategy) (inputSeries : List Bar) : List Bar :=
  match s.prepIndicators with
  | none => inputSeries
  | some f => f inputSeries

/-- The engine state after the whole bar loop. -/
def backtestFinalState (s : Strategy) (opts : BacktestOptions)
    (inputSeries : List Bar) : BacktestState :=
  runBars s opts (effectiveLookback s) (indicatorSeries s inputSeries) [] initialState

/-- The trade list of a validated run (src/unnamed/part_001 lines 197-414):
the loop result plus the finalization of a still-open position at the last
bar close with reason "finalize". -/
def backtestResult (s : Strategy) (opts : BacktestOptions)
    (inputSeries : List Bar) : List Trade :=
  let finalState := backtestFinalState s opts inputSeries
  match finalState.openPosition with
  | none => finalState.completedTrades
  | some position =>
      match (indicatorSeries s inputSeries).getLast? with
      | none => finalState.completedTrades
      | some lastBar =>
          finalState.completedTrades ++
            [finalizePosition position lastBar.time lastBar.close "finalize"]

/-- backtest (src/unnamed/part_001 lines 134-415): validations, optional
indicator preparation, the bar loop, then finalization of a still-open
position at the last bar close. -/
def backtest (s : Strategy) (inputSeries : List Bar) (opts : BacktestOptions) :
    Except String (List Trade) :=
  if inputSeries.isEmpty then
    .error "Expect input data series to contain at last 1 bar."
  else
    if inputSeries.length < effectiveLookback s then
      .error "You have less input data than your lookback period, the size of your input data should be some multiple of your lookback period."
    else
      .ok (backtestResult s opts inputSeries)

/-! ## Optimizers (src/src/lib/optimize.ts) -/

/-- Mirror of IParameterDef. -/
structure ParamDef where
  name : String
  startingValue : ℚ
  endingValue : ℚ
  stepSize : ℚ
deriving DecidableEq, Repr

inductive SearchDirection where
  | max
  | min
deriving DecidableEq, Repr

/-- acceptResult (optimize.ts lines 113-127): strict improvement only. -/
def acceptResult (workingResult nextResult : ℚ) (dir : SearchDirection) : Bool :=
  match dir with
  | .max => decide (workingResult < nextResult)
  | .min => decide (nextResult < workingResult)

/-- The per-axis loop of iterateDimension (optimize.ts line 133):
`for v = startingValue; v ≤ endingValue; v += stepSize`.  The source loops
forever when `stepSize ≤ 0`; the guard returns the empty list in that case,
which the theorems exclude by hypothesis. -/
def axisFrom (endV step v : ℚ) : List ℚ :=
  if h : 0 < step ∧ v ≤ endV then v :: axisFrom endV step (v + step) else []
  termination_by (⌊(endV - v) / step⌋ + 1).toNat
  decreasing_by
    obtain ⟨hs, hv⟩ := h
    have hq : (0:ℚ) ≤ (endV - v) / step := div_nonneg (by linarith) (le_of_lt hs)
    have hfl : (0:ℤ) ≤ ⌊(endV - v) / step⌋ := Int.floor_nonneg.mpr hq
    have hdiv : (endV - (v + step)) / step = (endV - v) / step - 1 := by
      field_simp
      ring
    rw [hdiv, Int.floor_sub_one]
    omega

def axisValues (p : ParamDef) : List ℚ :=
  axisFrom p.endingValue p.stepSize p.startingValue

/-- iterateDimension (optimize.ts lines 129-146), structurally on the list
of parameters from `parameterIndex` on: iterate the axis; recurse when more
parameters remain, otherwise yield the coordinates.  The source never calls
it with an empty parameter list (it would fault); that case yields the
accumulator alone. -/
def iterateDimension (workingCoordinates : List ℚ) : List ParamDef → List (List ℚ)
  | [] => [workingCoordinates]
  | [p] => (axisValues p).map (fun v => workingCoordinates ++ [v])
  | p :: q :: rest =>
      (axisValues p).flatMap (fun v => iterateDimension (workingCoordinates ++ [v]) (q :: rest))

/-- getAllCoordinates (optimize.ts lines 148-153). -/
def getAllCoordinates (parameters : List ParamDef) : List (List ℚ) :=
  iterateDimension [] parameters

/-- The body of gridSearchOptimization (optimize.ts lines 253-267): fold the
best-so-far (metric, coordinates) pair over the enumerated coordinates.  The
objective at a coordinate vector (backtest plus objectiveFn) is abstracted
as `f`. -/
def gridSearchLoop (f : List ℚ → ℚ) (dir : SearchDirection) :
    List (List ℚ) → Option (ℚ × List ℚ) → Option (ℚ × List ℚ)
  | [], best => best
  | c :: rest, best =>
      let m := f c
      let best2 := match best with
        | none => some (m, c)
        | some (bm, bc) => if acceptResult bm m dir then some (m, c) else some (bm, bc)
      gridSearchLoop f dir rest best2

/-- gridSearchOptimization (optimize.ts lines 239-275), returning the final
(bestResult, bestCoordinates); `none` models the crash on an empty sweep. -/
def gridSearchOptimization (f : List ℚ → ℚ) (dir : SearchDirection)
    (parameters : List ParamDef) : Option (ℚ × List ℚ) :=
  gridSearchLoop f dir (getAllCoordinates parameters) none

/-- The first phase of getNeighbours (optimize.ts lines 71-78).  The source
executes `coordinates[i] += stepSize`, MUTATING the working array, and the
yielded clone is taken after the mutation, so each perturbation persists
into the later iterations.  The embedding threads the mutated array
explicitly and returns (final array contents, yielded vectors in order). -/
def neighboursPlusPhase : List ℚ → List (ℕ × ParamDef) → List ℚ × List (List ℚ)
  | coordinates, [] => (coordinates, [])
  | coordinates, (i, p) :: rest =>
      let nextCoordinate := coordinates.getD i 0 + p.stepSize
      let coordinates2 := coordinates.set i nextCoordinate
      let r := neighboursPlusPhase coordinates2 rest
      if nextCoordinate ≤ p.endingValue then (r.1, coordinates2 :: r.2) else (r.1, r.2)

/-- The second phase of getNeighbours (optimize.ts lines 79-86), with
`coordinates[i] -= stepSize` and the lower-bound test. -/
def neighboursMinusPhase : List ℚ → List (ℕ × ParamDef) → List ℚ × List (List ℚ)
  | coordinates, [] => (coordinates, [])
  | coordinates, (i, p) :: rest =>
      let nextCoordinate := coordinates.getD i 0 - p.stepSize
      let coordinates2 := coordinates.set i nextCoordinate
      let r := neighboursMinusPhase coordinates2 rest
      if p.startingValue ≤ nextCoordinate then (r.1, coordinates2 :: r.2) else (r.1, r.2)

/-- getNeighbours (optimize.ts lines 70-87): the list of yielded neighbour
vectors, and the final contents of the (mutated) input array. -/
def getNeighbours (coordinates : List ℚ) (parameters : List ParamDef) :
    List (List ℚ) × List ℚ :=
  let idx := (List.range parameters.length).zip parameters
  let plus := neighboursPlusPhase coordinates idx
  let minus := neighboursMinusPhase plus.1 idx
  (plus.2 ++ minus.2, minus.1)

/-- The neighbour scan inside hillClimbOptimization
(optimize.ts lines 204-223).  The cache lookup on line 206 reads
`visitedCoordinates.get(workingCoordinates)` — the WORKING array, not the
neighbour — and a JavaScript Map keys arrays by reference: the working array
is exactly the one inserted on line 187, so before any move the lookup
always hits and `nextResult` is the working result itself.  The embedding
transcribes that: the neighbour metric considered is `workingMetric`. -/
def hillClimbScan (dir : SearchDirection) (workingMetric : ℚ) :
    List (List ℚ) → Option (List ℚ × ℚ)
  | [] => none
  | nextCoordinates :: rest =>
      let nextMetric := workingMetric
      if acceptResult workingMetric nextMetric dir then some (nextCoordinates, nextMetric)
      else hillClimbScan dir workingMetric rest

/-! ## Analysis curves (src/src/lib/analysis.ts, compute-drawdown.ts) -/

/-- The loop of computeEquityCurve (analysis.ts lines 43-46). -/
def computeEquityCurveLoop (workingCapital : ℚ) : List Trade → List ℚ
  | [] => []
  | trade :: rest =>
      let w := workingCapital * trade.growth
      w :: computeEquityCurveLoop w rest

/-- computeEquityCurve (analysis.ts lines 30-49). -/
def computeEquityCurve (startingCapital : ℚ) (trades : List Trade) :
    Except String (List ℚ) :=
  if startingCapital ≤ 0 then
    .error "Expected startingCapital argument to computeEquityCurve to be a positive number that specifies the amount of capital used to compute the equity curve."
  else
    .ok (startingCapital :: computeEquityCurveLoop startingCapital trades)

/-- The loop of computeDrawdown (compute-drawdown.ts lines 19-29). -/
def computeDrawdownLoop (workingCapital peakCapital : ℚ) : List Trade → List ℚ
  | [] => []
  | trade :: rest =>
      let w := workingCapital * trade.growth
      if w < peakCapital then (w - peakCapital) :: computeDrawdownLoop w peakCapital rest
      else 0 :: computeDrawdownLoop w w rest

/-- computeDrawdown (compute-drawdown.ts lines 4-32). -/
def computeDrawdown (startingCapital : ℚ) (trades : List Trade) :
    Except String (List ℚ) :=
  if startingCapital ≤ 0 then
    .error "Expected startingCapital argument to computeDrawdown to be a positive number that specifies the amount of capital used to compute drawdown."
  else
    .ok (0 :: computeDrawdownLoop startingCapital startingCapital trades)

/-! ## Helper lemmas -/

/-- The six fields of a position fixed by the entry-bar literal
(src/unnamed/part_001 lines 227-235). -/
def CoreFields (p : Position) (dir : TradeDirection) (bar : Bar) : Prop :=
  p.direction = dir ∧ p.entryTime = bar.time ∧ p.entryPrice = bar.openPrice ∧
  p.holdingPeriod = 0 ∧ p.growth = 1 ∧ p.profit = 0

lemma armStopLoss_core (s : Strategy) (e : ℚ) (pos0 : Position) (bar : Bar)
    (lb : List Bar) (dir : TradeDirection) (b : Bar) (h : CoreFields pos0 dir b) :
    CoreFields (armStopLoss s e pos0 bar lb) dir b := by
  unfold armStopLoss
  split <;> simp_all [CoreFields]

lemma armTrailingStop_core (s : Strategy) (opts : BacktestOptions) (e : ℚ)
    (pos1 : Position) (bar : Bar) (lb : List Bar) (dir : TradeDirection) (b : Bar)
    (h : CoreFields pos1 dir b) :
    CoreFields (armTrailingStop s opts e pos1 bar lb) dir b := by
  unfold armTrailingStop
  repeat' split <;> simp_all [CoreFields]

lemma armUnitRisk_core (opts : BacktestOptions) (e : ℚ) (pos2 : Position)
    (bar : Bar) (dir : TradeDirection) (b : Bar) (h : CoreFields pos2 dir b) :
    CoreFields (armUnitRisk opts e pos2 bar) dir b := by
  unfold armUnitRisk
  repeat' split <;> simp_all [CoreFields]

lemma armProfitTarget_core (s : Strategy) (e : ℚ) (pos3 : Position) (bar : Bar)
    (lb : List Bar) (dir : TradeDirection) (b : Bar) (h : CoreFields pos3 dir b) :
    CoreFields (armProfitTarget s e pos3 bar lb) dir b := by
  unfold armProfitTarget
  repeat' split <;> simp_all [CoreFields]

/-- The entry-bar position construction only decorates stop/risk/target
fields: the core fields match the source literal of lines 227-235. -/
lemma createPosition_core (s : Strategy) (opts : BacktestOptions)
    (dir : TradeDirection) (bar : Bar) (lookback : List Bar) :
    CoreFields (createPosition s opts dir bar lookback) dir bar := by
  unfold createPosition
  apply armProfitTarget_core
  apply armUnitRisk_core
  apply armTrailingStop_core
  apply armStopLoss_core
  simp [CoreFields]

/-! ## Claim C1: stop-loss has priority over every later step of the
Position state -/

/-- Claim C1: on a bar processed in the Position state on which both the
stop-loss and the profit-target are reachable (Long: `bar.low ≤ curStopPrice`
and `profitTarget ≤ bar.high`; Short symmetric), the stop-loss check runs
first: the position closes at `curStopPrice` with reason `"stop-loss"`, the
trade is finalized from the UNRATCHETED position, and the trailing ratchet,
profit-target check, position update, risk recording and exit rule leave no
trace in the resulting state. -/
theorem stop_loss_checked_first (s : Strategy) (opts : BacktestOptions)
    (st : BacktestState) (bar : Bar) (lookback : List Bar) (pos : Position)
    (c pt : ℚ)
    (hst : st.positionStatus = .Position)
    (hop : st.openPosition = some pos)
    (hc : pos.curStopPrice = some c)
    (hpt : pos.profitTarget = some pt)
    (hstop : if pos.direction = .Long then bar.low ≤ c else c ≤ bar.high)
    (htgt : if pos.direction = .Long then pt ≤ bar.high else bar.low ≤ pt) :
    processBar s opts st bar lookback =
      { st with
          completedTrades :=
            st.completedTrades ++ [finalizePosition pos bar.time c "stop-loss"]
          openPosition := none
          positionStatus := .None } := by
  unfold processBar
  rw [hst, hop]
  dsimp only
  rw [hc]
  rcases hd : pos.direction with _ | _ <;> rw [hd] at hstop <;> simp_all [closePos]

def c1Pos : Position :=
  { direction := .Long, entryTime := 1, entryPrice := 100, profit := 0,
    profitPct := 0, growth := 1, holdingPeriod := 0,
    initialStopPrice := some 95, curStopPrice := some 95,
    profitTarget := some 110 }

def c1St : BacktestState :=
  { completedTrades := [], positionStatus := .Position,
    positionDirection := .Long, conditionalEntryPrice := none,
    openPosition := some c1Pos }

def c1Bar : Bar := { time := 2, openPrice := 100, high := 112, low := 94, close := 111 }

def noStrategy : Strategy := { entryRule := fun _ _ => none }

/-- Witness for C1: a Long bar that spans both the stop (95) and the target
(110) closes at the stop. -/
theorem stop_loss_checked_first_witness :
    processBar noStrategy {} c1St c1Bar [] =
      { c1St with
          completedTrades := [finalizePosition c1Pos c1Bar.time 95 "stop-loss"]
          openPosition := none
          positionStatus := .None } := by
  exact stop_loss_checked_first noStrategy {} c1St c1Bar [] c1Pos 95 110
    rfl rfl rfl rfl (by decide) (by decide)

/-! ## Claim C2: the Enter state gate and the entry fill -/

/-- Claim C2: in the Enter state, a conditional Long entry fills only when
`bar.high ≥ conditionalEntryPrice` and a conditional Short entry only when
`bar.low ≤ conditionalEntryPrice` — otherwise the engine state is unchanged
(still Enter) — and when the gate passes (or the entry is unconditional) the
position is created with `entryPrice = bar.open`, `entryTime = bar.time`,
`holdingPeriod = 0`, `growth = 1`, `profit = 0`, the status becomes
Position, and nothing else of the state changes (no exit checks, updates or
exit-rule calls on the entry bar). -/
theorem enter_state_gate_and_fill (s : Strategy) (opts : BacktestOptions)
    (st : BacktestState) (bar : Bar) (lookback : List Bar)
    (hst : st.positionStatus = .Enter) :
    (∀ cep, st.conditionalEntryPrice = some cep →
      ((st.positionDirection = .Long ∧ bar.high < cep) ∨
       (st.positionDirection = .Short ∧ cep < bar.low)) →
      processBar s opts st bar lookback = st) ∧
    ((st.conditionalEntryPrice = none ∨
      (∃ cep, st.conditionalEntryPrice = some cep ∧
        ((st.positionDirection = .Long ∧ cep ≤ bar.high) ∨
         (st.positionDirection = .Short ∧ bar.low ≤ cep)))) →
      (processBar s opts st bar lookback =
        { st with
            openPosition := some (createPosition s opts st.positionDirection bar lookback)
            positionStatus := .Position } ∧
       CoreFields (createPosition s opts st.positionDirection bar lookback)
         st.positionDirection bar)) := by
  constructor
  · intro cep hcep hfail
    unfold processBar
    rw [hst, hcep]
    rcases hfail with ⟨hd, hlt⟩ | ⟨hd, hlt⟩ <;> rw [hd] <;> simp [hlt]
  · intro hpass
    refine ⟨?_, createPosition_core s opts st.positionDirection bar lookback⟩
    unfold processBar
    rw [hst]
    rcases hpass with hnone | ⟨cep, hcep, hdir⟩
    · rw [hnone]
    · rw [hcep]
      rcases hdir with ⟨hd, hle⟩ | ⟨hd, hle⟩ <;> rw [hd] <;>
        simp [not_lt.mpr hle]

def c2St : BacktestState :=
  { completedTrades := [], positionStatus := .Enter,
    positionDirection := .Long, conditionalEntryPrice := some 105,
    openPosition := none }

def c2BarNoFill : Bar := { time := 3, openPrice := 103, high := 104, low := 102, close := 103 }

/-- Witness for C2: a conditional Long entry at 105 does not fill on a bar
with high 104 and the state is unchanged. -/
theorem enter_state_gate_and_fill_witness :
    processBar noStrategy {} c2St c2BarNoFill [] = c2St := by
  exact (enter_state_gate_and_fill noStrategy {} c2St c2BarNoFill [] rfl).1
    105 rfl (Or.inl ⟨rfl, by decide⟩)

/-! ## Claim C4: updatePosition and the direction rule for running profit -/

def c4Position : Position :=
  { direction := .Short, entryTime := 0, entryPrice := 100, profit := 0,
    profitPct := 0, growth := 1, holdingPeriod := 0 }

def c4Bar : Bar := { time := 1, openPrice := 95, high := 96, low := 89, close := 90 }

/-- Claim C4 is violated by the code: updatePosition computes the running
profit as `bar.close - entryPrice` with NO branch on the direction
(src/unnamed/part_001 line 77), so a Short position that has moved 10 in its
favour (entry 100, close 90) carries running profit −10 where the claim
(and the finalizePosition formula of lines 93-95) requires +10. -/
theorem updatePosition_profit_ignores_direction :
    (∀ position bar, (updatePosition position bar).profit = bar.close - position.entryPrice) ∧
    c4Position.direction = TradeDirection.Short ∧
    c4Position.entryPrice - c4Bar.close = 10 ∧
    (updatePosition c4Position c4Bar).profit = -10 ∧
    (finalizePosition c4Position 1 c4Bar.close "x").profit = 10 := by
  refine ⟨?_, rfl, by norm_num [c4Position, c4Bar],
    by norm_num [updatePosition, c4Position, c4Bar],
    by norm_num [finalizePosition, c4Position, c4Bar]⟩
  intro position bar
  rcases h : position.curStopPrice with _ | stop <;> simp [updatePosition, h]

/-! ## Claim C8: input validation of backtest -/

lemma effectiveLookback_pos (s : Strategy) : 1 ≤ effectiveLookback s := by
  unfold effectiveLookback
  rcases s.lookbackPeriod with _ | n
  · exact le_refl 1
  · dsimp only
    split <;> omega

/-- Claim C8: backtest errors on an empty series, errors when the series is
shorter than the effective lookback period (`strategy.lookbackPeriod`,
defaulting to 1), and returns a trade list whenever the series has at least
`lookbackPeriod` (hence at least one) bars. -/
theorem backtest_input_validation (s : Strategy) (bars : List Bar)
    (opts : BacktestOptions) :
    (s.lookbackPeriod = none → effectiveLookback s = 1) ∧
    (bars = [] →
      backtest s bars opts = .error "Expect input data series to contain at last 1 bar.") ∧
    (bars ≠ [] → bars.length < effectiveLookback s →
      backtest s bars opts = .error "You have less input data than your lookback period, the size of your input data should be some multiple of your lookback period.") ∧
    (effectiveLookback s ≤ bars.length → ∃ trades, backtest s bars opts = .ok trades) := by
  refine ⟨?_, ?_, ?_, ?_⟩
  · intro h
    unfold effectiveLookback
    rw [h]
  · intro h
    subst h
    rfl
  · intro hne hlt
    unfold backtest
    rw [if_neg (by simpa [List.isEmpty_iff] using hne), if_pos hlt]
  · intro hle
    have hne : ¬ bars.isEmpty = true := by
      have := effectiveLookback_pos s
      cases bars with
      | nil => simp at hle; omega
      | cons a l => simp
    unfold backtest
    rw [if_neg hne, if_neg (not_lt.mpr hle)]
    exact ⟨backtestResult s opts bars, rfl⟩

/-- Witness for C8: a one-bar series with the default lookback passes
validation and the loop runs (here: no entry, so no trades). -/
theorem backtest_input_validation_witness :
    ([] = ([] : List Bar) →
      backtest noStrategy [] {} = .error "Expect input data series to contain at last 1 bar.") ∧
    (∃ trades, backtest noStrategy [c1Bar] {} = .ok trades) := by
  refine ⟨(backtest_input_validation noStrategy [] {}).2.1, ?_⟩
  exact (backtest_input_validation noStrategy [c1Bar] {}).2.2.2 (by decide)

/-! ## Claim C5: holdingPeriod increments (corrected) -/

def c5Strategy : Strategy :=
  { entryRule := fun bar _ => if bar.time = 1 then some {} else none
    stopLoss := some (fun _ _ _ _ => 5) }

def c5b1 : Bar := { time := 1, openPrice := 100, high := 100, low := 100, close := 100 }
def c5b2 : Bar := { time := 2, openPrice := 100, high := 101, low := 99, close := 100 }
def c5b3 : Bar := { time := 3, openPrice := 96, high := 97, low := 94, close := 96 }

def c5st1 : BacktestState := processBar c5Strategy {} initialState c5b1 [c5b1]
def c5st2 : BacktestState := processBar c5Strategy {} c5st1 c5b2 [c5b2]
def c5st3 : BacktestState := processBar c5Strategy {} c5st2 c5b3 [c5b3]

/-- The position created on bar 2 of the C5 run: entry 100, stop 95. -/
def c5EntryPos : Position :=
  { direction := .Long, entryTime := 2, entryPrice := 100, profit := 0,
    profitPct := 0, growth := 1, holdingPeriod := 0,
    initialUnitRisk := some 5, initialRiskPct := some 5, curRiskPct := some 5,
    curRMultiple := some 0, initialStopPrice := some 95, curStopPrice := some 95 }

lemma c5st1_eq : c5st1 =
    { completedTrades := [], positionStatus := .Enter, positionDirection := .Long,
      conditionalEntryPrice := none, openPosition := none } := by
  norm_num [c5st1, processBar, initialState, c5Strategy, c5b1]

lemma c5st2_eq : c5st2 =
    { completedTrades := [], positionStatus := .Position, positionDirection := .Long,
      conditionalEntryPrice := none, openPosition := some c5EntryPos } := by
  rw [c5st2, c5st1_eq]
  norm_num [processBar, createPosition, armStopLoss, armTrailingStop,
    armUnitRisk, armProfitTarget, c5Strategy, c5b2, c5EntryPos]

lemma c5st3_eq : c5st3 =
    { completedTrades := [finalizePosition c5EntryPos 3 95 "stop-loss"],
      positionStatus := .None, positionDirection := .Long,
      conditionalEntryPrice := none, openPosition := none } := by
  rw [c5st3, c5st2_eq]
  norm_num [processBar, closePos, c5b3, c5EntryPos]

lemma c5run2 : runBars c5Strategy {} 1 [c5b1, c5b2] [] initialState = c5st2 := by
  simp [runBars, pushBuffer, c5st2, c5st1]

lemma c5run3 : runBars c5Strategy {} 1 [c5b1, c5b2, c5b3] [] initialState = c5st3 := by
  simp [runBars, pushBuffer, c5st3, c5st2, c5st1]

/-- Counterexample to claim C5 as stated: bar 3 is processed while the
engine is in the Position state (the state after bars 1-2 is Position), yet
the emitted trade — closed by the stop-loss on bar 3 — has
`holdingPeriod = 0`: no increment happened on that Position-state bar,
because the stop-loss check closes the position before updatePosition runs. -/
theorem holdingPeriod_claim_counterexample :
    (runBars c5Strategy {} 1 [c5b1, c5b2] [] initialState).positionStatus =
      PositionStatus.Position ∧
    (backtest c5Strategy [c5b1, c5b2, c5b3] {}).map
        (List.map (fun t => (t.holdingPeriod, t.exitReason))) =
      .ok [(0, "stop-loss")] := by
  refine ⟨by rw [c5run2, c5st2_eq], ?_⟩
  have h1 : backtest c5Strategy [c5b1, c5b2, c5b3] {} =
      .ok (backtestResult c5Strategy {} [c5b1, c5b2, c5b3]) := rfl
  have h2 : backtestResult c5Strategy {} [c5b1, c5b2, c5b3] =
      [finalizePosition c5EntryPos 3 95 "stop-loss"] := by
    unfold backtestResult backtestFinalState
    rw [show indicatorSeries c5Strategy [c5b1, c5b2, c5b3] = [c5b1, c5b2, c5b3] from rfl,
        show effectiveLookback c5Strategy = 1 from rfl, c5run3, c5st3_eq]
  rw [h1, h2]
  simp [Except.map, finalizePosition, c5EntryPos]

lemma ratchet_holdingPeriod (s : Strategy) (opts : BacktestOptions)
    (pos : Position) (bar : Bar) (lb : List Bar) :
    (ratchetTrailingStop s opts pos bar lb).holdingPeriod = pos.holdingPeriod := by
  have h1 : ∀ p b t, (ratchetStopPrice p b t).holdingPeriod = p.holdingPeriod := by
    intro p b t
    unfold ratchetStopPrice
    dsimp only
    split
    all_goals split
    all_goals try split
    all_goals rfl
  have h2 : ∀ o p b, (recordStopSeries o p b).holdingPeriod = p.holdingPeriod := by
    intro o p b
    unfold recordStopSeries
    split
    all_goals try split
    all_goals rfl
  unfold ratchetTrailingStop
  split
  · rfl
  · rw [h2, h1]

lemma updatePosition_holdingPeriod (pos : Position) (bar : Bar) :
    (updatePosition pos bar).holdingPeriod = pos.holdingPeriod + 1 := by
  rcases h : pos.curStopPrice with _ | c <;> simp [updatePosition, h]

lemma positionUpdateStep_parts (s : Strategy) (opts : BacktestOptions)
    (st : BacktestState) (pos : Position) (bar : Bar) (lb : List Bar) :
    (∃ pos', (positionUpdateStep s opts st pos bar lb).openPosition = some pos' ∧
      pos'.holdingPeriod = pos.holdingPeriod + 1) ∧
    (positionUpdateStep s opts st pos bar lb).completedTrades = st.completedTrades := by
  unfold positionUpdateStep
  refine ⟨⟨_, rfl, ?_⟩, rfl⟩
  split
  · simp [updatePosition_holdingPeriod]
  · simp [updatePosition_holdingPeriod]

lemma positionAfterStop_open_holding (s : Strategy) (opts : BacktestOptions)
    (st : BacktestState) (pos : Position) (bar : Bar) (lb : List Bar)
    (pos' : Position)
    (h : (positionAfterStop s opts st pos bar lb).openPosition = some pos') :
    pos'.holdingPeriod = pos.holdingPeriod + 1 := by
  have hr := ratchet_holdingPeriod s opts pos bar lb
  unfold positionAfterStop at h
  dsimp only at h
  obtain ⟨⟨q, hq, hqh⟩, -⟩ :=
    positionUpdateStep_parts s opts st (ratchetTrailingStop s opts pos bar lb) bar lb
  split at h
  · split at h <;> split at h <;>
      first
        | (rw [hq] at h; obtain rfl := Option.some.inj h; omega)
        | simp [closePos] at h
  · rw [hq] at h
    obtain rfl := Option.some.inj h
    omega

lemma positionAfterStop_closed_holding (s : Strategy) (opts : BacktestOptions)
    (st : BacktestState) (pos : Position) (bar : Bar) (lb : List Bar) (t : Trade)
    (h : (positionAfterStop s opts st pos bar lb).completedTrades =
      st.completedTrades ++ [t]) :
    t.holdingPeriod = pos.holdingPeriod := by
  have hr := ratchet_holdingPeriod s opts pos bar lb
  unfold positionAfterStop at h
  dsimp only at h
  obtain ⟨-, htr⟩ :=
    positionUpdateStep_parts s opts st (ratchetTrailingStop s opts pos bar lb) bar lb
  split at h
  · split at h <;> split at h <;>
      first
        | (rw [htr] at h; simp at h)
        | (simp only [closePos] at h
           simp only [List.append_cancel_left_eq, List.cons.injEq, and_true] at h
           rw [← h]
           simp [finalizePosition, hr])
  · rw [htr] at h
    simp at h

/-- Claim C5 amended: holdingPeriod increments exactly once per bar
processed in the Position state on which the position is NOT closed by the
stop-loss or the profit-target (when it survives the bar it increments by
one; when the bar closes it intrabar the emitted trade carries the
un-incremented holdingPeriod), and never increments on the entry bar (a
position created in the Enter state starts at holdingPeriod 0). -/
theorem holdingPeriod_increment_amended (s : Strategy) (opts : BacktestOptions)
    (st : BacktestState) (bar : Bar) (lookback : List Bar) (pos : Position)
    (hst : st.positionStatus = .Position)
    (hop : st.openPosition = some pos) :
    (∀ pos', (processBar s opts st bar lookback).openPosition = some pos' →
      pos'.holdingPeriod = pos.holdingPeriod + 1) ∧
    (∀ t, (processBar s opts st bar lookback).completedTrades =
        st.completedTrades ++ [t] → t.holdingPeriod = pos.holdingPeriod) ∧
    (∀ st2 bar2 lb2 pos2, st2.positionStatus = .Enter →
      (processBar s opts st2 bar2 lb2).openPosition = some pos2 →
      st2.openPosition = none →
      pos2.holdingPeriod = 0) := by
  refine ⟨?_, ?_, ?_⟩
  · intro pos' h
    unfold processBar at h
    rw [hst, hop] at h
    dsimp only at h
    split at h
    · split at h <;> split at h <;>
        first
          | exact positionAfterStop_open_holding s opts st pos bar lookback pos' h
          | simp [closePos] at h
    · exact positionAfterStop_open_holding s opts st pos bar lookback pos' h
  · intro t h
    unfold processBar at h
    rw [hst, hop] at h
    dsimp only at h
    split at h
    · split at h <;> split at h <;>
        first
          | exact positionAfterStop_closed_holding s opts st pos bar lookback t h
          | (simp [closePos, finalizePosition] at h; simp [← h])
    · exact positionAfterStop_closed_holding s opts st pos bar lookback t h
  · intro st2 bar2 lb2 pos2 hst2 h hnone
    unfold processBar at h
    rw [hst2] at h
    dsimp only at h
    have hcore := createPosition_core s opts st2.positionDirection bar2 lb2
    split at h
    · split at h <;> split at h <;> simp_all [CoreFields]
    · simp only [BacktestState.mk.injEq] at h
      simp_all [CoreFields]

def c5SurvPos : Position :=
  { direction := .Long, entryTime := 2, entryPrice := 100, profit := 0,
    profitPct := 0, growth := 1, holdingPeriod := 0, curStopPrice := some 95 }

def c5SurvSt : BacktestState :=
  { completedTrades := [], positionStatus := .Position,
    positionDirection := .Long, conditionalEntryPrice := none,
    openPosition := some c5SurvPos }

def c5SurvBar : Bar := { time := 3, openPrice := 98, high := 99, low := 96, close := 98 }

def c5SurvPosAfter : Position :=
  ((processBar noStrategy {} c5SurvSt c5SurvBar []).openPosition).getD c5SurvPos

/-- Witness for the amended C5: a Position-state bar that survives the stop
increments holdingPeriod from 0 to 1. -/
theorem holdingPeriod_increment_amended_witness :
    c5SurvPosAfter.holdingPeriod = c5SurvPos.holdingPeriod + 1 :=
  (holdingPeriod_increment_amended noStrategy {} c5SurvSt c5SurvBar [] c5SurvPos
    rfl rfl).1 c5SurvPosAfter rfl

/-! ## Claim C7: hill-climb neighbour generation and first-improvement -/

/-- Claim C7 is violated by the code, in two ways.  (1) getNeighbours
mutates the working coordinate array (`coordinates[i] += stepSize` /
`-= stepSize`, optimize.ts lines 72 and 80), so for the single-axis vector
[5] on the grid 0..10 step 1 it yields [6] and then [5] — the ORIGINAL
point, restored by the decrement — instead of the −step neighbour [4] the
claim describes.  (2) The inner scan compares the working result against
the cached working result itself (`visitedCoordinates.get(workingCoordinates)`,
line 206), and `acceptResult m m dir` is always false, so the search never
moves to any neighbour. -/
theorem hill_climb_neighbour_bug :
    getNeighbours [5] [{ name := "x", startingValue := 0, endingValue := 10, stepSize := 1 }] =
      ([[6], [5]], [5]) ∧
    (∀ (m : ℚ) (dir : SearchDirection), acceptResult m m dir = false) ∧
    (∀ (dir : SearchDirection) (m : ℚ) (ns : List (List ℚ)),
      hillClimbScan dir m ns = none) := by
  refine ⟨?_, ?_, ?_⟩
  · norm_num [getNeighbours, neighboursPlusPhase, neighboursMinusPhase]
  · intro m dir
    cases dir <;> simp [acceptResult]
  · intro dir m ns
    induction ns with
    | nil => rfl
    | cons n rest ih =>
        unfold hillClimbScan
        cases dir <;> simp [acceptResult, ih]

/-! ## Claim C9: equity curve and drawdown -/

/-- Running maxima of a nonempty list, seeded with an accumulator. -/
def runningMaxAux (m : ℚ) : List ℚ → List ℚ
  | [] => []
  | x :: xs => max m x :: runningMaxAux (max m x) xs

/-- Running maxima of a list: element i is the maximum of elements 0..i. -/
def runningMax : List ℚ → List ℚ
  | [] => []
  | x :: xs => x :: runningMaxAux x xs

lemma computeEquityCurveLoop_length (w : ℚ) (ts : List Trade) :
    (computeEquityCurveLoop w ts).length = ts.length := by
  induction ts generalizing w with
  | nil => rfl
  | cons t ts ih => simp [computeEquityCurveLoop, ih]

lemma runningMaxAux_length (m : ℚ) (l : List ℚ) :
    (runningMaxAux m l).length = l.length := by
  induction l generalizing m with
  | nil => rfl
  | cons x xs ih => simp [runningMaxAux, ih]

lemma equity_recurrence (C : ℚ) (ts : List Trade) (i : ℕ) (hi : i < ts.length) :
    (C :: computeEquityCurveLoop C ts).getD (i+1) 0 =
      (C :: computeEquityCurveLoop C ts).getD i 0 * (ts.get ⟨i, hi⟩).growth := by
  induction ts generalizing C i with
  | nil => simp at hi
  | cons t ts ih =>
      cases i with
      | zero => simp [computeEquityCurveLoop]
      | succ n =>
          have hn : n < ts.length := by simpa using hi
          have := ih (C * t.growth) n hn
          simpa [computeEquityCurveLoop] using this

lemma drawdown_zip (w p : ℚ) (ts : List Trade) :
    computeDrawdownLoop w p ts =
      List.zipWith (fun e q => e - q) (computeEquityCurveLoop w ts)
        (runningMaxAux p (computeEquityCurveLoop w ts)) := by
  induction ts generalizing w p with
  | nil => rfl
  | cons t ts ih =>
      unfold computeDrawdownLoop computeEquityCurveLoop runningMaxAux
      dsimp only
      split
      · next h =>
          rw [max_eq_left (le_of_lt h)]
          simp [ih]
      · next h =>
          rw [max_eq_right (not_lt.mp h)]
          simp [ih]

lemma drawdown_nonpos (w p : ℚ) (ts : List Trade) :
    ∀ x ∈ computeDrawdownLoop w p ts, x ≤ 0 := by
  induction ts generalizing w p with
  | nil => simp [computeDrawdownLoop]
  | cons t ts ih =>
      unfold computeDrawdownLoop
      dsimp only
      split
      · next h =>
          intro x hx
          rcases List.mem_cons.mp hx with rfl | hx
          · linarith
          · exact ih _ _ _ hx
      · next h =>
          intro x hx
          rcases List.mem_cons.mp hx with rfl | hx
          · exact le_refl 0
          · exact ih _ _ _ hx

/-- Claim C9: for positive starting capital the equity curve has
`trades.length + 1` points, starts at the capital, multiplies by each
trade's growth, and the drawdown curve is pointwise `equity − running max`
and never positive. -/
theorem equity_and_drawdown_curves (C : ℚ) (trades : List Trade) (hC : 0 < C) :
    ∃ eq dd,
      computeEquityCurve C trades = .ok eq ∧
      computeDrawdown C trades = .ok dd ∧
      eq.length = trades.length + 1 ∧
      eq.getD 0 0 = C ∧
      (∀ i (hi : i < trades.length),
        eq.getD (i+1) 0 = eq.getD i 0 * (trades.get ⟨i, hi⟩).growth) ∧
      dd.length = eq.length ∧
      dd = List.zipWith (fun e q => e - q) eq (runningMax eq) ∧
      (∀ x ∈ dd, x ≤ 0) := by
  refine ⟨C :: computeEquityCurveLoop C trades, 0 :: computeDrawdownLoop C C trades,
    ?_, ?_, ?_, rfl, ?_, ?_, ?_, ?_⟩
  · unfold computeEquityCurve
    rw [if_neg (not_le.mpr hC)]
  · unfold computeDrawdown
    rw [if_neg (not_le.mpr hC)]
  · simp [computeEquityCurveLoop_length]
  · exact equity_recurrence C trades
  · simp [computeEquityCurveLoop_length, drawdown_zip, runningMaxAux_length]
  · rw [runningMax]
    rw [List.zipWith]
    rw [← drawdown_zip]
    simp
  · intro x hx
    rcases List.mem_cons.mp hx with rfl | hx
    · exact le_refl 0
    · exact drawdown_nonpos C C trades x hx

def c9Trade : Trade :=
  { direction := .Long, entryTime := 0, entryPrice := 100, exitTime := 1,
    exitPrice := 200, profit := 100, profitPct := 100, growth := 2,
    riskPct := none, rmultiple := none, riskSeries := none, holdingPeriod := 1,
    exitReason := "exit-rule", stopPrice := none, stopPriceSeries := none,
    profitTarget := none }

/-- Witness for C9 at capital 100 with one growth-2 trade. -/
theorem equity_and_drawdown_curves_witness :
    (0:ℚ) < 100 ∧
    (∃ eq dd,
      computeEquityCurve 100 [c9Trade] = .ok eq ∧
      computeDrawdown 100 [c9Trade] = .ok dd ∧
      eq.length = [c9Trade].length + 1 ∧
      eq.getD 0 0 = 100 ∧
      (∀ i (hi : i < [c9Trade].length),
        eq.getD (i+1) 0 = eq.getD i 0 * (([c9Trade].get ⟨i, hi⟩)).growth) ∧
      dd.length = eq.length ∧
      dd = List.zipWith (fun e q => e - q) eq (runningMax eq) ∧
      (∀ x ∈ dd, x ≤ 0)) :=
  ⟨by norm_num, equity_and_drawdown_curves 100 [c9Trade] (by norm_num)⟩

/-! ## Claim C6: grid search enumeration order and tie-breaking -/

/-- Nested Cartesian product with the first axis outermost (the spec-side
comparator for the enumeration order of getAllCoordinates). -/
def cartesianNested : List (List ℚ) → List (List ℚ)
  | [] => [[]]
  | ax :: rest => ax.flatMap (fun v => (cartesianNested rest).map (fun w => v :: w))

lemma acceptResult_irrefl (m : ℚ) (dir : SearchDirection) :
    acceptResult m m dir = false := by
  cases dir <;> simp [acceptResult]

lemma axisFrom_closed (endV step : ℚ) (hs : 0 < step) :
    ∀ (n : ℕ) (v : ℚ), (⌊(endV - v) / step⌋ + 1).toNat = n →
      axisFrom endV step v = (List.range n).map (fun k : ℕ => v + (k : ℚ) * step) := by
  intro n
  induction n with
  | zero =>
      intro v hn
      have hneg : ⌊(endV - v) / step⌋ + 1 ≤ 0 := by omega
      have hlt : ¬ v ≤ endV := by
        intro hle
        have hq : (0:ℚ) ≤ (endV - v) / step := div_nonneg (by linarith) (le_of_lt hs)
        have := Int.floor_nonneg.mpr hq
        omega
      rw [axisFrom, dif_neg (fun h => hlt h.2)]
      simp
  | succ n ih =>
      intro v hn
      have hfl : 0 ≤ ⌊(endV - v) / step⌋ := by omega
      have hq : (0:ℚ) ≤ (endV - v) / step := by
        calc (0:ℚ) ≤ (⌊(endV - v) / step⌋ : ℚ) := by exact_mod_cast hfl
        _ ≤ (endV - v) / step := Int.floor_le _
      have hv : v ≤ endV := by
        have := (div_nonneg_iff.mp hq).resolve_right (fun h => absurd h.2 (not_le.mpr hs))
        linarith [this.1]
      have hstep : (⌊(endV - (v + step)) / step⌋ + 1).toNat = n := by
        have hdiv : (endV - (v + step)) / step = (endV - v) / step - 1 := by
          field_simp
          ring
        rw [hdiv, Int.floor_sub_one]
        omega
      rw [axisFrom]
      rw [dif_pos ⟨hs, hv⟩, ih (v + step) hstep, List.range_succ_eq_map]
      simp only [List.map_cons, List.map_map, List.cons.injEq]
      constructor
      · norm_num
      · apply List.map_congr_left
        intro k _
        simp only [Function.comp_apply]
        push_cast
        ring

lemma axisValues_mem (p : ParamDef) (hs : 0 < p.stepSize) (v : ℚ) :
    v ∈ axisValues p ↔
      ∃ k : ℕ, v = p.startingValue + k * p.stepSize ∧ v ≤ p.endingValue := by
  unfold axisValues
  rw [axisFrom_closed p.endingValue p.stepSize hs _ p.startingValue rfl]
  simp only [List.mem_map, List.mem_range]
  constructor
  · rintro ⟨k, hk, rfl⟩
    refine ⟨k, rfl, ?_⟩
    have hk4 : (k:ℤ) ≤ ⌊(p.endingValue - p.startingValue) / p.stepSize⌋ := by omega
    have hk3 : (k:ℚ) ≤ (p.endingValue - p.startingValue) / p.stepSize := by
      have := Int.le_floor.mp hk4
      exact_mod_cast this
    have := (le_div_iff hs).mp hk3
    linarith
  · rintro ⟨k, rfl, hle⟩
    refine ⟨k, ?_, rfl⟩
    have hk3 : (k:ℚ) ≤ (p.endingValue - p.startingValue) / p.stepSize := by
      rw [le_div_iff hs]
      linarith
    have hk4 : (k:ℤ) ≤ ⌊(p.endingValue - p.startingValue) / p.stepSize⌋ :=
      Int.le_floor.mpr (by exact_mod_cast hk3)
    omega

lemma flatMap_singleton_map (l : List ℚ) (g : ℚ → List ℚ) :
    (l.flatMap (fun v => [g v])) = l.map g := by
  induction l with
  | nil => rfl
  | cons x xs ih => simp [List.flatMap_cons, ih]

lemma iterateDimension_eq (ps : List ParamDef) :
    ∀ pre, iterateDimension pre ps =
      (cartesianNested (ps.map axisValues)).map (fun w => pre ++ w) := by
  induction ps with
  | nil => intro pre; simp [iterateDimension, cartesianNested]
  | cons p ps ih =>
      intro pre
      cases ps with
      | nil =>
          show (axisValues p).map (fun v => pre ++ [v]) = _
          simp only [cartesianNested, List.map_flatMap, List.map_nil, List.map_cons]
          rw [flatMap_singleton_map (axisValues p) (fun a => pre ++ [a])]
      | cons q rest =>
          show (axisValues p).flatMap
              (fun v => iterateDimension (pre ++ [v]) (q :: rest)) = _
          simp only [ih]
          simp [cartesianNested, List.map_flatMap, List.map_map,
            Function.comp_def, List.append_assoc, List.singleton_append]

lemma gridLoop_props (f : List ℚ → ℚ) (dir : SearchDirection) :
    ∀ (cs : List (List ℚ)) (c : List ℚ),
      ∃ b, gridSearchLoop f dir cs (some (f c, c)) = some (f b, b) ∧
        (b = c ∨ b ∈ cs) ∧
        acceptResult (f b) (f c) dir = false ∧
        (∀ d ∈ cs, acceptResult (f b) (f d) dir = false) ∧
        ∃ pre post, c :: cs = pre ++ b :: post ∧
          ∀ e ∈ pre, acceptResult (f e) (f b) dir = true := by
  intro cs
  induction cs with
  | nil =>
      intro c
      exact ⟨c, rfl, Or.inl rfl, acceptResult_irrefl (f c) dir, by simp,
        [], [], rfl, by simp⟩
  | cons d cs ih =>
      intro c
      rcases hacc : acceptResult (f c) (f d) dir with _ | _
      · -- d does not beat the accumulator c
        obtain ⟨b, hloop, hmem, hbc, hall, pre', post', hsplit, hpre⟩ := ih c
        refine ⟨b, ?_, ?_, hbc, ?_, ?_⟩
        · simpa [gridSearchLoop, hacc] using hloop
        · rcases hmem with rfl | h
          · exact Or.inl rfl
          · exact Or.inr (List.mem_cons_of_mem d h)
        · intro e he
          rcases List.mem_cons.mp he with rfl | he
          · -- e = d: d does not beat c and c does not beat b
            cases dir <;> simp [acceptResult] at hacc hbc ⊢ <;> linarith
          · exact hall e he
        · cases pre' with
          | nil =>
              simp only [List.nil_append] at hsplit
              injection hsplit with h1 h2
              exact ⟨[], d :: cs, by rw [h1]; rfl, by simp⟩
          | cons x pre'' =>
              rw [List.cons_append] at hsplit
              injection hsplit with h1 h2
              have hxb := hpre x (List.mem_cons_self x pre'')
              rw [← h1] at hxb
              have hdb : acceptResult (f d) (f b) dir = true := by
                cases dir <;> simp [acceptResult] at hacc hxb ⊢ <;> linarith
              refine ⟨c :: d :: pre'', post', by rw [h2]; simp, ?_⟩
              intro e he
              rcases List.mem_cons.mp he with rfl | he
              · exact hxb
              · rcases List.mem_cons.mp he with rfl | he
                · exact hdb
                · exact hpre e (List.mem_cons_of_mem x he)
      · -- d beats the accumulator c: the fold moves to d
        obtain ⟨b, hloop, hmem, hbd, hall, pre', post', hsplit, hpre⟩ := ih d
        have hcb : acceptResult (f c) (f b) dir = true := by
          cases dir <;> simp [acceptResult] at hacc hbd ⊢ <;> linarith
        refine ⟨b, ?_, ?_, ?_, ?_, ?_⟩
        · simpa [gridSearchLoop, hacc] using hloop
        · rcases hmem with rfl | h
          · exact Or.inr (List.mem_cons_self _ cs)
          · exact Or.inr (List.mem_cons_of_mem d h)
        · cases dir <;> simp [acceptResult] at hcb ⊢ <;> linarith
        · intro e he
          rcases List.mem_cons.mp he with rfl | he
          · exact hbd
          · exact hall e he
        · exact ⟨c :: pre', post', by rw [List.cons_append, hsplit], by
            intro e he
            rcases List.mem_cons.mp he with rfl | he
            · exact hcb
            · exact hpre e he⟩

/-- Claim C6: grid search enumerates the Cartesian product in nested order
with parameter 0 outermost, each axis running
`startingValue, +stepSize, … ≤ endingValue`; the best metric is replaced
only on strict improvement, so the returned coordinates are the first in
enumeration order that no enumerated coordinate strictly beats, and every
coordinate enumerated before them is strictly beaten by the winner. -/
theorem grid_search_first_best (ps : List ParamDef) (p : ParamDef) (v : ℚ)
    (f : List ℚ → ℚ) (dir : SearchDirection) (m : ℚ) (c : List ℚ)
    (hstep : 0 < p.stepSize)
    (hgrid : gridSearchOptimization f dir ps = some (m, c)) :
    getAllCoordinates ps = cartesianNested (ps.map axisValues) ∧
    (v ∈ axisValues p ↔
      ∃ k : ℕ, v = p.startingValue + k * p.stepSize ∧ v ≤ p.endingValue) ∧
    m = f c ∧ c ∈ getAllCoordinates ps ∧
    (∀ d ∈ getAllCoordinates ps, acceptResult m (f d) dir = false) ∧
    (∃ pre post, getAllCoordinates ps = pre ++ c :: post ∧
      ∀ d ∈ pre, acceptResult (f d) m dir = true) := by
  have hcart : getAllCoordinates ps = cartesianNested (ps.map axisValues) := by
    unfold getAllCoordinates
    simpa using iterateDimension_eq ps []
  refine ⟨hcart, axisValues_mem p hstep v, ?_⟩
  unfold gridSearchOptimization at hgrid
  rcases hcs : getAllCoordinates ps with _ | ⟨c0, rest⟩
  · rw [hcs] at hgrid
    simp [gridSearchLoop] at hgrid
  · rw [hcs] at hgrid
    have hgrid2 : gridSearchLoop f dir rest (some (f c0, c0)) = some (m, c) := by
      simpa [gridSearchLoop] using hgrid
    obtain ⟨b, hloop, hmem, hbc, hall, pre, post, hsplit, hpre⟩ :=
      gridLoop_props f dir rest c0
    rw [hloop] at hgrid2
    have hp := Option.some.inj hgrid2
    have hm : f b = m := congrArg Prod.fst hp
    have hb : b = c := congrArg Prod.snd hp
    subst hb
    subst hm
    refine ⟨rfl, ?_, ?_, pre, post, hsplit, hpre⟩
    · rcases hmem with rfl | h
      · exact List.mem_cons_self _ _
      · exact List.mem_cons_of_mem _ h
    · intro d hd
      rcases List.mem_cons.mp hd with rfl | hd
      · exact hbc
      · exact hall d hd

def c6Param : ParamDef :=
  { name := "a", startingValue := 0, endingValue := 2, stepSize := 1 }

lemma c6_axis : axisValues c6Param = [0, 1, 2] := by
  show axisFrom 2 1 0 = [0, 1, 2]
  rw [axisFrom, dif_pos (by norm_num)]
  rw [axisFrom, dif_pos (by norm_num)]
  rw [axisFrom, dif_pos (by norm_num)]
  rw [axisFrom, dif_neg (by norm_num)]
  norm_num

lemma c6_grid :
    gridSearchOptimization (fun c : List ℚ => c.headD 0) SearchDirection.max
      [c6Param] = some (2, [2]) := by
  unfold gridSearchOptimization getAllCoordinates
  simp only [iterateDimension, c6_axis]
  norm_num [gridSearchLoop, acceptResult]

/-- Witness for C6: one axis 0..2 step 1, objective = head, direction max:
the sweep is [[0], [1], [2]] and the unique optimum [2] is returned. -/
theorem grid_search_first_best_witness :
    getAllCoordinates [c6Param] = cartesianNested ([c6Param].map axisValues) ∧
    ((1:ℚ) ∈ axisValues c6Param ↔
      ∃ k : ℕ, (1:ℚ) = c6Param.startingValue + k * c6Param.stepSize ∧
        (1:ℚ) ≤ c6Param.endingValue) ∧
    (2:ℚ) = (fun c : List ℚ => c.headD 0) [2] ∧
    [2] ∈ getAllCoordinates [c6Param] ∧
    (∀ d ∈ getAllCoordinates [c6Param],
      acceptResult 2 ((fun c : List ℚ => c.headD 0) d) SearchDirection.max = false) ∧
    (∃ pre post, getAllCoordinates [c6Param] = pre ++ [2] :: post ∧
      ∀ d ∈ pre,
        acceptResult ((fun c : List ℚ => c.headD 0) d) 2 SearchDirection.max = true) := by
  apply grid_search_first_best [c6Param] c6Param 1 (fun c => c.headD 0)
    SearchDirection.max 2 [2]
  · norm_num [c6Param]
  · exact c6_grid

/-! ## Claim C3: monotonicity of the stop price and the recorded series -/

/-- Direction-relative order: "b is at least as tight as a". -/
def dirLE : TradeDirection → ℚ → ℚ → Prop
  | .Long, a, b => a ≤ b
  | .Short, a, b => b ≤ a

/-- A recorded stop series is monotone in the direction sense: values are
non-decreasing for Long, non-increasing for Short. -/
def seriesMono (dir : TradeDirection) (l : List (ℕ × ℚ)) : Prop :=
  List.Chain' (fun x y => dirLE dir x.2 y.2) l

/-- The per-position invariant: whenever a stop series is recorded it is
monotone, and its last sample is no tighter than the current stop. -/
def stopInv (p : Position) : Prop :=
  ∀ l, p.stopPriceSeries = some l →
    seriesMono p.direction l ∧
    ∃ c e, p.curStopPrice = some c ∧ l.getLast? = some e ∧ dirLE p.direction e.2 c

/-- Every emitted trade's recorded stop series is monotone. -/
def tradesMono (trades : List Trade) : Prop :=
  ∀ t ∈ trades, ∀ l, t.stopPriceSeries = some l → seriesMono t.direction l

def stInv (st : BacktestState) : Prop :=
  tradesMono st.completedTrades ∧ ∀ p, st.openPosition = some p → stopInv p

lemma dirLE_refl (dir : TradeDirection) (c : ℚ) : dirLE dir c c := by
  cases dir <;> simp [dirLE]

lemma dirLE_trans (dir : TradeDirection) (a b c : ℚ)
    (h1 : dirLE dir a b) (h2 : dirLE dir b c) : dirLE dir a c := by
  cases dir <;> simp [dirLE] at * <;> linarith

lemma stopInv_congr (p q : Position) (hd : q.direction = p.direction)
    (hc : q.curStopPrice = p.curStopPrice)
    (hs : q.stopPriceSeries = p.stopPriceSeries) (h : stopInv p) : stopInv q := by
  intro l hl
  rw [hs] at hl
  obtain ⟨h1, c, e, hsc, hlast, hle⟩ := h l hl
  exact ⟨by rw [seriesMono, hd]; exact h1, c, e, by rw [hc]; exact hsc, hlast,
    by rw [hd]; exact hle⟩

lemma updatePosition_stopFields (p : Position) (b : Bar) :
    (updatePosition p b).direction = p.direction ∧
    (updatePosition p b).curStopPrice = p.curStopPrice ∧
    (updatePosition p b).stopPriceSeries = p.stopPriceSeries := by
  rcases h : p.curStopPrice with _ | c <;> simp [updatePosition, h]

lemma ratchetStopPrice_direction (p : Position) (b : Bar) (t : ℚ) :
    (ratchetStopPrice p b t).direction = p.direction := by
  unfold ratchetStopPrice
  dsimp only
  split
  all_goals split
  all_goals try split
  all_goals rfl

lemma ratchetStopPrice_series (p : Position) (b : Bar) (t : ℚ) :
    (ratchetStopPrice p b t).stopPriceSeries = p.stopPriceSeries := by
  unfold ratchetStopPrice
  dsimp only
  split
  all_goals split
  all_goals try split
  all_goals rfl

lemma ratchetStopPrice_some (p : Position) (b : Bar) (t : ℚ) (c : ℚ)
    (h : p.curStopPrice = some c) :
    ∃ c', (ratchetStopPrice p b t).curStopPrice = some c' ∧ dirLE p.direction c c' := by
  unfold ratchetStopPrice
  rcases hd : p.direction with _ | _ <;> simp only [hd, h] <;> split
  · next hlt => exact ⟨b.close - t, rfl, by simp only [hd, dirLE]; linarith⟩
  · exact ⟨c, by simp [h], by simp [hd, dirLE]⟩
  · next hlt => exact ⟨b.close + t, rfl, by simp only [hd, dirLE]; linarith⟩
  · exact ⟨c, by simp [h], by simp [hd, dirLE]⟩

lemma recordStopSeries_props (o : BacktestOptions) (p : Position) (b : Bar) :
    (recordStopSeries o p b).direction = p.direction ∧
    (recordStopSeries o p b).curStopPrice = p.curStopPrice ∧
    (stopInv p → stopInv (recordStopSeries o p b)) := by
  unfold recordStopSeries
  split
  · split
    · next c hc =>
        refine ⟨rfl, rfl, ?_⟩
        intro h l hl
        simp only [Option.some.injEq] at hl
        rcases hser : p.stopPriceSeries with _ | l0
        · rw [hser] at hl
          simp at hl
          subst hl
          exact ⟨List.chain'_singleton _, c, (b.time, c), hc, rfl, dirLE_refl _ _⟩
        · rw [hser] at hl
          obtain ⟨hmono, c0, e, hsc0, hlast, hle⟩ := h l0 hser
          rw [hc] at hsc0
          injection hsc0 with hsc0
          subst hsc0
          simp only [Option.getD_some] at hl
          subst hl
          refine ⟨?_, c, (b.time, c), hc, ?_, dirLE_refl _ _⟩
          · rw [seriesMono, List.chain'_append]
            refine ⟨hmono, List.chain'_singleton _, ?_⟩
            intro x hx y hy
            simp only [List.head?_cons, Option.mem_def, Option.some.injEq] at hy
            rw [hlast] at hx
            simp only [Option.mem_def, Option.some.injEq] at hx
            subst hx
            subst hy
            exact hle
          · simp
    · exact ⟨rfl, rfl, fun h => h⟩
  · exact ⟨rfl, rfl, fun h => h⟩

lemma ratchetTrailingStop_props (s : Strategy) (opts : BacktestOptions)
    (p : Position) (bar : Bar) (lb : List Bar) :
    (ratchetTrailingStop s opts p bar lb).direction = p.direction ∧
    (stopInv p → stopInv (ratchetTrailingStop s opts p bar lb)) ∧
    (∀ c, p.curStopPrice = some c →
      ∃ c', (ratchetTrailingStop s opts p bar lb).curStopPrice = some c' ∧
        dirLE p.direction c c') := by
  unfold ratchetTrailingStop
  split
  · exact ⟨rfl, fun h => h, fun c hc => ⟨c, hc, dirLE_refl _ _⟩⟩
  · next tsl heq =>
      have hd1 := ratchetStopPrice_direction p bar (tsl p.entryPrice p bar lb)
      have hs1 := ratchetStopPrice_series p bar (tsl p.entryPrice p bar lb)
      obtain ⟨hd2, hc2, hinv2⟩ :=
        recordStopSeries_props opts (ratchetStopPrice p bar (tsl p.entryPrice p bar lb)) bar
      refine ⟨by rw [hd2, hd1], ?_, ?_⟩
      · intro h
        apply hinv2
        intro l hl
        rw [hs1] at hl
        obtain ⟨hmono, c, e, hsc, hlast, hle⟩ := h l hl
        obtain ⟨c', hc', hcc'⟩ := ratchetStopPrice_some p bar _ c hsc
        exact ⟨by rw [seriesMono, hd1]; exact hmono, c', e, hc', hlast,
          by rw [hd1]; exact dirLE_trans _ _ _ _ hle hcc'⟩
      · intro c hc
        obtain ⟨c', hc', hcc'⟩ := ratchetStopPrice_some p bar _ c hc
        exact ⟨c', by rw [hc2]; exact hc', hcc'⟩

lemma armStopLoss_direction (s : Strategy) (e : ℚ) (p : Position) (bar : Bar)
    (lb : List Bar) : (armStopLoss s e p bar lb).direction = p.direction := by
  unfold armStopLoss
  split <;> rfl

lemma armStopLoss_series (s : Strategy) (e : ℚ) (p : Position) (bar : Bar)
    (lb : List Bar) :
    (armStopLoss s e p bar lb).stopPriceSeries = p.stopPriceSeries := by
  unfold armStopLoss
  split <;> rfl

lemma armUnitRisk_curStop (opts : BacktestOptions) (e : ℚ) (p : Position)
    (bar : Bar) : (armUnitRisk opts e p bar).curStopPrice = p.curStopPrice := by
  unfold armUnitRisk
  split
  · rfl
  · next c hc =>
      cases hrec : opts.recordRisk <;> simp [hrec, hc]

lemma armUnitRisk_series (opts : BacktestOptions) (e : ℚ) (p : Position)
    (bar : Bar) :
    (armUnitRisk opts e p bar).stopPriceSeries = p.stopPriceSeries := by
  unfold armUnitRisk
  split
  · rfl
  · cases hrec : opts.recordRisk <;> simp [hrec]

lemma armUnitRisk_direction (opts : BacktestOptions) (e : ℚ) (p : Position)
    (bar : Bar) : (armUnitRisk opts e p bar).direction = p.direction := by
  unfold armUnitRisk
  split
  · rfl
  · cases hrec : opts.recordRisk <;> simp [hrec]

lemma armProfitTarget_curStop (s : Strategy) (e : ℚ) (p : Position) (bar : Bar)
    (lb : List Bar) : (armProfitTarget s e p bar lb).curStopPrice = p.curStopPrice := by
  unfold armProfitTarget
  split <;> rfl

lemma armProfitTarget_series (s : Strategy) (e : ℚ) (p : Position) (bar : Bar)
    (lb : List Bar) :
    (armProfitTarget s e p bar lb).stopPriceSeries = p.stopPriceSeries := by
  unfold armProfitTarget
  split <;> rfl

lemma armProfitTarget_direction (s : Strategy) (e : ℚ) (p : Position) (bar : Bar)
    (lb : List Bar) : (armProfitTarget s e p bar lb).direction = p.direction := by
  unfold armProfitTarget
  split <;> rfl

lemma armTrailingStop_series_char (s : Strategy) (opts : BacktestOptions) (e : ℚ)
    (p : Position) (bar : Bar) (lb : List Bar) (hser : p.stopPriceSeries = none) :
    ∀ l, (armTrailingStop s opts e p bar lb).stopPriceSeries = some l →
      ∃ c, l = [(bar.time, c)] ∧ (armTrailingStop s opts e p bar lb).curStopPrice = some c := by
  unfold armTrailingStop
  split
  · intro l hl
    rw [hser] at hl
    exact absurd hl (by simp)
  · dsimp only
    split
    · intro l hl
      simp only [Option.some.injEq] at hl
      subst hl
      exact ⟨_, rfl, rfl⟩
    · intro l hl
      rw [hser] at hl
      exact absurd hl (by simp)

/-- The position created on an entry bar satisfies the stop invariant: if a
stop series was recorded it is the singleton holding the armed stop. -/
lemma createPosition_stopInv (s : Strategy) (opts : BacktestOptions)
    (dir : TradeDirection) (bar : Bar) (lb : List Bar) :
    stopInv (createPosition s opts dir bar lb) := by
  unfold createPosition
  dsimp only
  intro l hl
  rw [armProfitTarget_series, armUnitRisk_series] at hl
  have hser0 : ∀ p0 : Position, p0.stopPriceSeries = none →
      (armStopLoss s bar.openPrice p0 bar lb).stopPriceSeries = none := by
    intro p0 h0
    rw [armStopLoss_series, h0]
  obtain ⟨c, hlc, hcc⟩ :=
    armTrailingStop_series_char s opts bar.openPrice _ bar lb (hser0 _ rfl) l hl
  subst hlc
  refine ⟨List.chain'_singleton _, c, (bar.time, c), ?_, rfl, dirLE_refl _ _⟩
  rw [armProfitTarget_curStop, armUnitRisk_curStop]
  exact hcc

lemma closePos_stInv (st : BacktestState) (pos : Position) (bar : Bar)
    (price : ℚ) (reason : String) (hinv : stInv st) (hpos : stopInv pos) :
    stInv (closePos st pos bar price reason) := by
  unfold closePos
  constructor
  · intro t ht l hl
    rcases List.mem_append.mp ht with ht | ht
    · exact hinv.1 t ht l hl
    · simp only [List.mem_singleton] at ht
      subst ht
      exact (hpos l hl).1
  · intro p hp
    exact absurd hp (by simp)

lemma positionUpdateStep_open (s : Strategy) (opts : BacktestOptions)
    (st : BacktestState) (pos : Position) (bar : Bar) (lb : List Bar) :
    ∃ pos', (positionUpdateStep s opts st pos bar lb).openPosition = some pos' ∧
      pos'.curStopPrice = pos.curStopPrice ∧ pos'.direction = pos.direction ∧
      pos'.stopPriceSeries = pos.stopPriceSeries ∧
      (positionUpdateStep s opts st pos bar lb).completedTrades = st.completedTrades := by
  obtain ⟨h1, h2, h3⟩ := updatePosition_stopFields pos bar
  unfold positionUpdateStep
  refine ⟨_, rfl, ?_, ?_, ?_, rfl⟩
  · split <;> simp [h2]
  · split <;> simp [h1]
  · split <;> simp [h3]

lemma positionUpdateStep_stInv (s : Strategy) (opts : BacktestOptions)
    (st : BacktestState) (pos : Position) (bar : Bar) (lb : List Bar)
    (hinv : stInv st) (hpos : stopInv pos) :
    stInv (positionUpdateStep s opts st pos bar lb) := by
  obtain ⟨pos', hopen, hc, hd, hs, htr⟩ := positionUpdateStep_open s opts st pos bar lb
  constructor
  · intro t ht
    rw [htr] at ht
    exact hinv.1 t ht
  · intro p hp
    rw [hopen] at hp
    obtain rfl := Option.some.inj hp
    exact stopInv_congr pos pos' hd hc hs hpos

lemma positionAfterStop_stInv (s : Strategy) (opts : BacktestOptions)
    (st : BacktestState) (pos : Position) (bar : Bar) (lb : List Bar)
    (hinv : stInv st) (hpos : stopInv pos) :
    stInv (positionAfterStop s opts st pos bar lb) := by
  obtain ⟨hdr, hinvr, _⟩ := ratchetTrailingStop_props s opts pos bar lb
  have hpos2 := hinvr hpos
  unfold positionAfterStop
  dsimp only
  split
  · split <;> split <;>
      first
        | exact closePos_stInv _ _ _ _ _ hinv hpos2
        | exact positionUpdateStep_stInv _ _ _ _ _ _ hinv hpos2
  · exact positionUpdateStep_stInv _ _ _ _ _ _ hinv hpos2

lemma processBar_stInv (s : Strategy) (opts : BacktestOptions)
    (st : BacktestState) (bar : Bar) (lb : List Bar) (h : stInv st) :
    stInv (processBar s opts st bar lb) := by
  unfold processBar
  split
  · split
    · exact h
    · exact ⟨h.1, h.2⟩
  · dsimp only
    have hcreate := createPosition_stopInv s opts st.positionDirection bar lb
    have henter : stInv
        { st with
            openPosition := some (createPosition s opts st.positionDirection bar lb)
            positionStatus := .Position } := by
      refine ⟨h.1, ?_⟩
      intro p hp
      obtain rfl := Option.some.inj hp
      exact hcreate
    split
    · split <;> split
      · exact h
      · exact henter
      · exact h
      · exact henter
    · exact henter
  · split
    · exact h
    · next pos hpos =>
        have hstop := h.2 pos hpos
        split
        · split <;> split <;>
            first
              | exact closePos_stInv _ _ _ _ _ h hstop
              | exact positionAfterStop_stInv _ _ _ _ _ _ h hstop
        · exact positionAfterStop_stInv _ _ _ _ _ _ h hstop
  · split
    · exact h
    · next pos hpos => exact closePos_stInv _ _ _ _ _ h (h.2 pos hpos)

lemma runBars_stInv (s : Strategy) (opts : BacktestOptions) (lb : ℕ) :
    ∀ (bars buf : List Bar) (st : BacktestState), stInv st →
      stInv (runBars s opts lb bars buf st) := by
  intro bars
  induction bars with
  | nil => intro buf st h; exact h
  | cons b rest ih =>
      intro buf st h
      unfold runBars
      dsimp only
      split
      · exact ih _ _ h
      · exact ih _ _ (processBar_stInv _ _ _ _ _ h)

lemma backtestResult_mono (s : Strategy) (opts : BacktestOptions)
    (bars : List Bar) : tradesMono (backtestResult s opts bars) := by
  have hfin : stInv (backtestFinalState s opts bars) := by
    unfold backtestFinalState
    apply runBars_stInv
    exact ⟨fun t ht => absurd ht (List.not_mem_nil t),
      fun p hp => absurd hp (by simp [initialState])⟩
  unfold backtestResult
  dsimp only
  split
  · exact hfin.1
  · next pos hpos =>
      split
      · exact hfin.1
      · next lastBar hlast =>
          intro t ht l hl
          rcases List.mem_append.mp ht with ht | ht
          · exact hfin.1 t ht l hl
          · simp only [List.mem_singleton] at ht
            subst ht
            exact (hfin.2 pos hpos l hl).1

lemma positionAfterStop_curStop (s : Strategy) (opts : BacktestOptions)
    (st : BacktestState) (pos : Position) (bar : Bar) (lb : List Bar)
    (pos' : Position)
    (h : (positionAfterStop s opts st pos bar lb).openPosition = some pos')
    (c : ℚ) (hc : pos.curStopPrice = some c) :
    ∃ c', pos'.curStopPrice = some c' ∧ dirLE pos.direction c c' := by
  obtain ⟨_, _, hsome⟩ := ratchetTrailingStop_props s opts pos bar lb
  obtain ⟨c', hc', hcc'⟩ := hsome c hc
  obtain ⟨q, hq, hqc, _, _, _⟩ :=
    positionUpdateStep_open s opts st (ratchetTrailingStop s opts pos bar lb) bar lb
  unfold positionAfterStop at h
  dsimp only at h
  split at h
  · split at h <;> split at h <;>
      first
        | simp [closePos] at h
        | (rw [hq] at h
           obtain rfl := Option.some.inj h
           exact ⟨c', by rw [hqc]; exact hc', hcc'⟩)
  · rw [hq] at h
    obtain rfl := Option.some.inj h
    exact ⟨c', by rw [hqc]; exact hc', hcc'⟩

lemma createPosition_combined_stop (s : Strategy) (opts : BacktestOptions)
    (dir : TradeDirection) (bar : Bar) (lb : List Bar) (d t : ℚ)
    (hsl : s.stopLoss = some (fun _ _ _ _ => d))
    (htsl : s.trailingStopLoss = some (fun _ _ _ _ => t)) :
    (createPosition s opts dir bar lb).curStopPrice =
      some (match dir with
        | .Long => max (bar.openPrice - d) (bar.openPrice - t)
        | .Short => min (bar.openPrice + d) (bar.openPrice + t)) := by
  unfold createPosition
  dsimp only
  rw [armProfitTarget_curStop, armUnitRisk_curStop]
  unfold armTrailingStop armStopLoss
  rw [hsl, htsl]
  dsimp only
  cases dir <;> (dsimp only; split <;> rfl)

/-- Claim C3: (1) across every bar processed in the Position state on which
the position stays open, `curStopPrice` only tightens — non-decreasing for
Long, non-increasing for Short; (2) at entry arming, when both `stopLoss`
and `trailingStopLoss` are configured (here with constant distances) the
tighter price wins: max of the two candidates for Long, min for Short;
(3) consequently, on every successful backtest every emitted trade's
recorded `stopPriceSeries` is monotone in the direction sense. -/
theorem stop_price_monotone :
    (∀ (s : Strategy) (opts : BacktestOptions) (st : BacktestState) (bar : Bar)
        (lb : List Bar) (pos pos' : Position) (c c' : ℚ),
      st.positionStatus = .Position → st.openPosition = some pos →
      (processBar s opts st bar lb).openPosition = some pos' →
      pos.curStopPrice = some c → pos'.curStopPrice = some c' →
      dirLE pos.direction c c') ∧
    (∀ (s : Strategy) (opts : BacktestOptions) (dir : TradeDirection) (bar : Bar)
        (lb : List Bar) (d t : ℚ),
      s.stopLoss = some (fun _ _ _ _ => d) →
      s.trailingStopLoss = some (fun _ _ _ _ => t) →
      (createPosition s opts dir bar lb).curStopPrice =
        some (match dir with
          | .Long => max (bar.openPrice - d) (bar.openPrice - t)
          | .Short => min (bar.openPrice + d) (bar.openPrice + t))) ∧
    (∀ (s : Strategy) (bars : List Bar) (opts : BacktestOptions)
        (trades : List Trade),
      backtest s bars opts = .ok trades →
      ∀ t ∈ trades, ∀ l, t.stopPriceSeries = some l → seriesMono t.direction l) := by
  refine ⟨?_, ?_, ?_⟩
  · intro s opts st bar lb pos pos' c c' hst hop h hc hc'
    unfold processBar at h
    rw [hst, hop] at h
    dsimp only at h
    rw [hc] at h
    rcases hd : pos.direction with _ | _ <;> rw [hd] at h <;> dsimp only at h <;>
        split at h <;>
      first
        | simp [closePos] at h
        | (obtain ⟨c0, hc0, hle⟩ :=
            positionAfterStop_curStop s opts st pos bar lb pos' h c hc
           rw [hc'] at hc0
           obtain rfl := Option.some.inj hc0
           rw [hd] at hle
           exact hle)
  · intro s opts dir bar lb d t hsl htsl
    exact createPosition_combined_stop s opts dir bar lb d t hsl htsl
  · intro s bars opts trades hok t ht l hl
    unfold backtest at hok
    split at hok
    · exact absurd hok (by simp)
    · split at hok
      · exact absurd hok (by simp)
      · injection hok with h2
        subst h2
        exact backtestResult_mono s opts bars t ht l hl

def c3Strategy : Strategy :=
  { entryRule := fun _ _ => none
    trailingStopLoss := some (fun _ _ _ _ => 3) }

def c3Strategy2 : Strategy :=
  { entryRule := fun _ _ => none
    stopLoss := some (fun _ _ _ _ => 5)
    trailingStopLoss := some (fun _ _ _ _ => 3) }

def c3Pos : Position :=
  { direction := .Long, entryTime := 1, entryPrice := 100, profit := 0,
    profitPct := 0, growth := 1, holdingPeriod := 0,
    initialStopPrice := some 95, curStopPrice := some 95 }

def c3St : BacktestState :=
  { completedTrades := [], positionStatus := .Position,
    positionDirection := .Long, conditionalEntryPrice := none,
    openPosition := some c3Pos }

def c3Bar : Bar := { time := 2, openPrice := 99, high := 100, low := 96, close := 100 }

def c3PosAfter : Position :=
  { direction := .Long, entryTime := 1, entryPrice := 100, profit := 0,
    profitPct := 0, growth := 1, holdingPeriod := 1,
    initialStopPrice := some 95, curStopPrice := some 97,
    curRiskPct := some 3, curRMultiple := some 0 }

lemma c3_step :
    (processBar c3Strategy {} c3St c3Bar []).openPosition = some c3PosAfter := by
  norm_num [processBar, positionAfterStop, positionUpdateStep,
    ratchetTrailingStop, ratchetStopPrice, recordStopSeries, updatePosition,
    c3Strategy, c3St, c3Pos, c3Bar, c3PosAfter]

/-- Witness for C3: a Long trailing ratchet from stop 95 to 97 tightens
(95 ≤ 97), and entry arming with stop distance 5 and trailing distance 3
from open 99 arms the tighter `max (99-5) (99-3)`. -/
theorem stop_price_monotone_witness :
    dirLE c3Pos.direction 95 97 ∧
    (createPosition c3Strategy2 {} TradeDirection.Long c3Bar []).curStopPrice =
      some (max (c3Bar.openPrice - 5) (c3Bar.openPrice - 3)) := by
  constructor
  · exact stop_price_monotone.1 c3Strategy {} c3St c3Bar [] c3Pos c3PosAfter
      95 97 rfl rfl c3_step rfl rfl
  · exact stop_price_monotone.2.1 c3Strategy2 {} TradeDirection.Long c3Bar []
      5 3 rfl rfl

/-! ## Claim C10: pending signals at the end of the data -/

/-- Status/position coherence: no position is held in None or Enter, and a
position is always held in Position or Exit. -/
def statusOk (st : BacktestState) : Prop :=
  ((st.positionStatus = .None ∨ st.positionStatus = .Enter) → st.openPosition = none) ∧
  ((st.positionStatus = .Position ∨ st.positionStatus = .Exit) →
    ∃ p, st.openPosition = some p)

lemma processBar_statusOk (s : Strategy) (opts : BacktestOptions)
    (st : BacktestState) (bar : Bar) (lb : List Bar) (h : statusOk st) :
    statusOk (processBar s opts st bar lb) := by
  unfold processBar
  split
  · next hst =>
      have hnone := h.1 (Or.inl hst)
      split
      · exact h
      · exact ⟨fun _ => hnone, fun hc => by
          rcases hc with hc | hc <;> exact absurd hc (by simp)⟩
  · next hst =>
      have hnone := h.1 (Or.inr hst)
      dsimp only
      have henter : statusOk
          { st with
              openPosition := some (createPosition s opts st.positionDirection bar lb)
              positionStatus := .Position } := by
        refine ⟨fun hc => ?_, fun _ => ⟨_, rfl⟩⟩
        rcases hc with hc | hc <;> exact absurd hc (by simp)
      split
      · split <;> split
        · exact h
        · exact henter
        · exact h
        · exact henter
      · exact henter
  · next hst =>
      split
      · next hop =>
          obtain ⟨p, hp⟩ := h.2 (Or.inl hst)
          rw [hop] at hp
          exact absurd hp (by simp)
      · next pos hpos =>
          have hclose : ∀ (p2 : Position) (price : ℚ) (reason : String),
              statusOk (closePos st p2 bar price reason) := by
            intro p2 price reason
            refine ⟨fun _ => rfl, fun hc => ?_⟩
            rcases hc with hc | hc <;> exact absurd hc (by simp [closePos])
          have hafter : statusOk (positionAfterStop s opts st pos bar lb) := by
            obtain ⟨q, hq, _, _, _, _⟩ :=
              positionUpdateStep_open s opts st (ratchetTrailingStop s opts pos bar lb) bar lb
            have hupd : statusOk (positionUpdateStep s opts st
                (ratchetTrailingStop s opts pos bar lb) bar lb) := by
              refine ⟨fun hc => ?_, fun _ => ⟨q, hq⟩⟩
              unfold positionUpdateStep at hc
              dsimp only at hc
              rcases hc with hc | hc <;> (repeat' split at hc)
              all_goals simp at hc
            unfold positionAfterStop
            dsimp only
            split
            · split <;> split
              · exact hclose _ _ _
              · exact hupd
              · exact hclose _ _ _
              · exact hupd
            · exact hupd
          split
          · split <;> split
            · exact hclose _ _ _
            · exact hafter
            · exact hclose _ _ _
            · exact hafter
          · exact hafter
  · next hst =>
      split
      · next hop =>
          obtain ⟨p, hp⟩ := h.2 (Or.inr hst)
          rw [hop] at hp
          exact absurd hp (by simp)
      · next pos hpos =>
          refine ⟨fun _ => rfl, fun hc => ?_⟩
          rcases hc with hc | hc <;> exact absurd hc (by simp [closePos])

lemma runBars_statusOk (s : Strategy) (opts : BacktestOptions) (lb : ℕ) :
    ∀ (bars buf : List Bar) (st : BacktestState), statusOk st →
      statusOk (runBars s opts lb bars buf st) := by
  intro bars
  induction bars with
  | nil => intro buf st h; exact h
  | cons b rest ih =>
      intro buf st h
      unfold runBars
      dsimp only
      split
      · exact ih _ _ h
      · exact ih _ _ (processBar_statusOk _ _ _ _ _ h)

lemma backtestFinalState_statusOk (s : Strategy) (opts : BacktestOptions)
    (bars : List Bar) : statusOk (backtestFinalState s opts bars) := by
  unfold backtestFinalState
  apply runBars_statusOk
  exact ⟨fun _ => rfl, fun hc => by
    rcases hc with hc | hc <;> exact absurd hc (by simp [initialState])⟩

/-- Claim C10: when the bars end with the engine in the Enter state (an
entry signal whose fill never happened), no trade is emitted for it — the
output is exactly the completed-trade list; when the bars end in the Exit
state (exitPosition signalled on the final bar), the open position is
finalized at the LAST BAR CLOSE with reason "finalize", not at a following
bar open with reason "exit-rule". -/
theorem end_of_data_finalization (s : Strategy) (opts : BacktestOptions)
    (bars : List Bar) (hne : bars ≠ [])
    (hlb : effectiveLookback s ≤ bars.length) :
    ((backtestFinalState s opts bars).positionStatus = .Enter →
      backtest s bars opts = .ok (backtestFinalState s opts bars).completedTrades) ∧
    ((backtestFinalState s opts bars).positionStatus = .Exit →
      ∃ p lastBar, (backtestFinalState s opts bars).openPosition = some p ∧
        (indicatorSeries s bars).getLast? = some lastBar ∧
        backtest s bars opts =
          .ok ((backtestFinalState s opts bars).completedTrades ++
            [finalizePosition p lastBar.time lastBar.close "finalize"]) ∧
        (finalizePosition p lastBar.time lastBar.close "finalize").exitPrice =
          lastBar.close ∧
        (finalizePosition p lastBar.time lastBar.close "finalize").exitReason =
          "finalize") := by
  have hok2 := backtestFinalState_statusOk s opts bars
  have hbt : backtest s bars opts = .ok (backtestResult s opts bars) := by
    unfold backtest
    rw [if_neg (by simpa [List.isEmpty_iff] using hne), if_neg (not_lt.mpr hlb)]
  constructor
  · intro hEnter
    have hnonePos := hok2.1 (Or.inr hEnter)
    have hres : backtestResult s opts bars =
        (backtestFinalState s opts bars).completedTrades := by
      unfold backtestResult
      dsimp only
      split
      · rfl
      · next pos hpos =>
          rw [hnonePos] at hpos
          exact absurd hpos (by simp)
    rw [hbt, hres]
  · intro hExit
    obtain ⟨p, hp⟩ := hok2.2 (Or.inr hExit)
    have hindne : indicatorSeries s bars ≠ [] := by
      intro hempty
      have hfin : backtestFinalState s opts bars = initialState := by
        unfold backtestFinalState
        rw [hempty]
        rfl
      rw [hfin] at hExit
      exact absurd hExit (by simp [initialState])
    obtain ⟨lastBar, hlast⟩ :
        ∃ lb2, (indicatorSeries s bars).getLast? = some lb2 := by
      rcases hgl : (indicatorSeries s bars).getLast? with _ | lb2
      · exact absurd (List.getLast?_eq_none_iff.mp hgl) hindne
      · exact ⟨lb2, rfl⟩
    refine ⟨p, lastBar, hp, hlast, ?_, rfl, rfl⟩
    have hres : backtestResult s opts bars =
        (backtestFinalState s opts bars).completedTrades ++
          [finalizePosition p lastBar.time lastBar.close "finalize"] := by
      unfold backtestResult
      dsimp only
      split
      · next hnone => rw [hp] at hnone; exact absurd hnone (by simp)
      · next pos hpos =>
          rw [hp] at hpos
          obtain rfl := Option.some.inj hpos
          split
          · next hnone2 => rw [hlast] at hnone2; exact absurd hnone2 (by simp)
          · next lb2 hlb2 =>
              rw [hlast] at hlb2
              obtain rfl := Option.some.inj hlb2
              rfl
    rw [hbt, hres]

def c10Strategy : Strategy :=
  { entryRule := fun bar _ => if bar.time = 1 then some {} else none }

def c10b1 : Bar := { time := 1, openPrice := 100, high := 100, low := 100, close := 100 }

/-- Witness for C10: an entry signalled on the only (hence final) bar leaves
the engine in Enter and the backtest emits no trade for it. -/
theorem end_of_data_finalization_witness :
    backtest c10Strategy [c10b1] {} =
      .ok (backtestFinalState c10Strategy {} [c10b1]).completedTrades :=
  (end_of_data_finalization c10Strategy {} [c10b1] (by simp) (by decide)).1 rfl

end Grademark
